import Mathlib

/-!
Verification of the maximo-ai-agent repository's core: the tool-schema
adapter (`toOpenAITools`), the agent orchestration loop
(`app.post("/api/agent/chat")`), the trace-log endpoint (`/api/logs`),
and the MCP registry helpers (`/mcp/call`, `tenantOrThrow`).

JSON values are modelled by the inductive `Json`; JavaScript coercions
(truthiness, `String(...)`, `typeof x === "object"`) are embedded as
executable functions mirroring the ECMAScript semantics the source
relies on.
-/

inductive Json where
  | null
  | bool (b : Bool)
  | num (n : Int)
  | str (s : String)
  | arr (xs : List Json)
  | obj (fields : List (String × Json))

namespace Json

/-- JavaScript truthiness of a JSON value: `null`, `false`, `0` and `""`
are falsy; arrays and objects are always truthy. -/
def truthy : Json → Bool
  | .null => false
  | .bool b => b
  | .num n => n != 0
  | .str s => s != ""
  | .arr _ => true
  | .obj _ => true

/-- JavaScript `typeof x === "object"`: true for objects, arrays and
`null`. -/
def typeofObj : Json → Bool
  | .null => true
  | .arr _ => true
  | .obj _ => true
  | _ => false

/-- Property access `x.k`: `none` models `undefined` (also for access on
primitives, where named properties used by this code are absent). -/
def jsGet : Json → String → Option Json
  | .obj fs, k => fs.lookup k
  | _, _ => none

/-- Truthiness of a possibly-`undefined` value. -/
def truthyO : Option Json → Bool
  | some v => truthy v
  | none => false

mutual
/-- JavaScript `String(x)` coercion: arrays join their elements with `,`
(with `null` elements rendered empty), objects render as
`[object Object]`. -/
def jsToString : Json → String
  | .null => "null"
  | .bool true => "true"
  | .bool false => "false"
  | .num n => toString n
  | .str s => s
  | .arr xs => arrToString xs
  | .obj _ => "[object Object]"

/-- `Array.prototype.toString`, i.e. `join(",")` with `null` elements
rendered as the empty string. -/
def arrToString : List Json → String
  | [] => ""
  | [Json.null] => ""
  | [x] => jsToString x
  | Json.null :: y :: xs => "," ++ arrToString (y :: xs)
  | x :: y :: xs => jsToString x ++ "," ++ arrToString (y :: xs)
end

def hexDigit (n : Nat) : String :=
  String.singleton ("0123456789abcdef".toList.getD n '0')

/-- Escaping of one character inside a JSON string literal, as
`JSON.stringify` performs it. -/
def escChar (c : Char) : String :=
  if c = '"' then "\\\""
  else if c = '\\' then "\\\\"
  else if c = '\n' then "\\n"
  else if c = '\r' then "\\r"
  else if c = '\t' then "\\t"
  else if c = '\x08' then "\\b"
  else if c = '\x0c' then "\\f"
  else if c.toNat < 32 then "\\u00" ++ hexDigit (c.toNat / 16) ++ hexDigit (c.toNat % 16)
  else String.singleton c

def escape (s : String) : String :=
  String.join (s.toList.map escChar)

mutual
/-- `JSON.stringify` of a JSON value. -/
def stringify : Json → String
  | .null => "null"
  | .bool true => "true"
  | .bool false => "false"
  | .num n => toString n
  | .str s => "\"" ++ escape s ++ "\""
  | .arr xs => "[" ++ stringifyList xs ++ "]"
  | .obj fs => "\x7b" ++ stringifyFields fs ++ "\x7d"

def stringifyList : List Json → String
  | [] => ""
  | [x] => stringify x
  | x :: y :: xs => stringify x ++ "," ++ stringifyList (y :: xs)

def stringifyFields : List (String × Json) → String
  | [] => ""
  | [(k, v)] => "\"" ++ escape k ++ "\":" ++ stringify v
  | (k, v) :: f :: fs => "\"" ++ escape k ++ "\":" ++ stringify v ++ "," ++ stringifyFields (f :: fs)
end

/-- `Array.isArray(x) ? x : []`. -/
def jsArray : Json → List Json
  | .arr xs => xs
  | _ => []

end Json

/-- Whether `suffix` is a suffix of `s` (string test used by the
regular expressions `/x$/` of the source). -/
def strEndsWith (s suffix : String) : Bool :=
  suffix.toList.isSuffixOf s.toList

/-- The whitespace class of JavaScript `String.prototype.trim`. -/
def jsWhitespace (c : Char) : Bool :=
  c = ' ' || c = '\t' || c = '\n' || c = '\r' || c = '\x0b' || c = '\x0c'

/-- JavaScript `String.prototype.trim`. -/
def jsTrim (s : String) : String :=
  String.mk (((s.toList.dropWhile jsWhitespace).reverse.dropWhile jsWhitespace).reverse)

/-! ## Tool Schema Adapter (`toOpenAITools`, README app code lines 274-307) -/

/-- The fallback parameters schema
`\x7b type: "object", properties: \x7b\x7d, additionalProperties: true \x7d`. -/
def defaultSchema : Json :=
  .obj [("type", .str "object"), ("properties", .obj []), ("additionalProperties", .bool true)]

/-- `t.type === "function"`. -/
def isFnType (t : Json) : Bool :=
  match t.jsGet "type" with
  | some (.str s) => s == "function"
  | _ => false

/-- The guard of the already-OpenAI-ready branch:
`t && t.type === "function" && t.function && t.function.name`. -/
def canonGuard (t : Json) : Bool :=
  t.truthy && isFnType t && Json.truthyO (t.jsGet "function") &&
    Json.truthyO (((t.jsGet "function").getD Json.null).jsGet "name")

/-- `String(x || "")`: stringify a truthy value, else the empty string. -/
def strOrEmpty (o : Option Json) : String :=
  match o with
  | some v => if v.truthy then v.jsToString else ""
  | none => ""

/-- `(p && typeof p === "object") ? p : defaultSchema`. -/
def paramsOrDefault (o : Option Json) : Json :=
  match o with
  | some p => if p.truthy && p.typeofObj then p else defaultSchema
  | none => defaultSchema

/-- The canonical descriptor object both branches of `toOpenAITools`
construct. -/
def mkCanonical (name desc : String) (params : Json) : Json :=
  .obj [("type", .str "function"),
        ("function", .obj [("name", .str name), ("description", .str desc), ("parameters", params)])]

/-- One step of the `for`-loop body of `toOpenAITools`: `some` when the
descriptor is pushed to `out`, `none` when it is skipped (`continue`). -/
def convTool (t : Json) : Option Json :=
  if canonGuard t then
    let f := (t.jsGet "function").getD Json.null
    some (mkCanonical ((f.jsGet "name").getD Json.null).jsToString
            (strOrEmpty (f.jsGet "description"))
            (paramsOrDefault (f.jsGet "parameters")))
  else
    let nm := jsTrim (strOrEmpty (t.jsGet "name"))
    if nm = "" then none
    else
      some (mkCanonical nm (strOrEmpty (t.jsGet "description"))
              (paramsOrDefault (t.jsGet "inputSchema")))

/-- `toOpenAITools` from the agent server: normalize a raw tool list into
OpenAI function descriptors, dropping entries without a usable name. -/
def toOpenAITools (tools : Json) : List Json :=
  (tools.jsArray).filterMap convTool

/-- The `function` field of a produced descriptor. -/
def fnField (y : Json) : Json := (y.jsGet "function").getD Json.null

def fnName (y : Json) : Option Json := (fnField y).jsGet "name"

def fnParams (y : Json) : Option Json := (fnField y).jsGet "parameters"

/-- The `name` value consulted by the already-canonical branch. -/
def canonName (t : Json) : Json :=
  ((t.jsGet "function").getD Json.null).jsGet "name" |>.getD Json.null

/-- The parameters-schema field the adapter reads for a given raw
descriptor: `function.parameters` in the canonical branch, `inputSchema`
in the native branch. -/
def rawParams (t : Json) : Option Json :=
  if canonGuard t then ((t.jsGet "function").getD Json.null).jsGet "parameters"
  else t.jsGet "inputSchema"

/-- The test deciding whether a present parameters value is kept. -/
def paramsKept (o : Option Json) : Bool :=
  match o with
  | some p => p.truthy && p.typeofObj
  | none => false

/-! ## Orchestration loop (`app.post("/api/agent/chat")`, README app code lines 250-497)

The loop's external effects (`openaiCompatChat`, `fetch` of
`/mcp/call` followed by `.json()`, and `JSON.parse`) are modelled by an
environment of oracle functions; `none` models the call throwing (a
network failure, a non-2xx provider status, or a body that fails to
parse as JSON), which the source code does not catch inside the loop —
the surrounding `try`/`catch` of the route handler turns it into the
`agent_failed` 500 response. -/

/-- One provider-issued tool call, i.e. one entry of
`choices[0].message.tool_calls`. -/
structure ToolCallMsg where
  id : String
  name : String
  arguments : Option String

/-- The provider message the loop reads: `out?.choices?.[0]?.message`. -/
structure Reply where
  content : Option String
  tool_calls : List ToolCallMsg

/-- A conversation message as the loop builds them. -/
inductive Msg where
  | system (content : String)
  | user (content : String)
  | assistant (content : String) (tool_calls : List ToolCallMsg)
  | tool (tool_call_id : String) (content : String)

/-- The environment of external calls the loop performs.
`provider p` is the message of the `p`-th chat completion (`none` =
the call threw); `invoke k body` is the parsed JSON body of the `k`-th
`POST /mcp/call` (`none` = the fetch or `.json()` threw); `jsonParse`
is `JSON.parse` returning `none` when it throws. -/
structure Env where
  jsonParse : String → Option Json
  provider : Nat → Option Reply
  invoke : Nat → Json → Option Json

/-- Observable outcome of one run of the loop: the HTTP-level result
(`ok reply` or the `agent_failed` error), the final `loopMessages`
array, and how many provider completions and tool invocations were
attempted. -/
structure RunOutcome where
  result : Except String String
  messages : List Msg
  providerCalls : Nat
  toolInvocations : Nat

/-- `tc?.function?.arguments || "\x7b\x7d"`. -/
def argsStrOf (tc : ToolCallMsg) : String :=
  match tc.arguments with
  | some s => if s = "" then "\x7b\x7d" else s
  | none => "\x7b\x7d"

/-- The body `JSON.stringify(\x7b name, args, tenant \x7d)` the loop sends to
`POST /mcp/call`. -/
def mcpCallRequestBody (name : String) (args : Json) (tenant : String) : Json :=
  .obj [("name", .str name), ("args", args), ("tenant", .str tenant)]

/-- `JSON.parse(argsStr)` with the `catch` producing `\x7b raw: argsStr \x7d`. -/
def parsedArgs (env : Env) (argsStr : String) : Json :=
  match env.jsonParse argsStr with
  | some a => a
  | none => .obj [("raw", .str argsStr)]

/-- The inner `for (const tc of toolCalls)` loop: invoke each tool call
in order, appending a `tool` message with the stringified response
body. Returns `(success, messages, invocations)`; `success = false`
when an invocation threw (the exception then escapes the loop). -/
def execTools (env : Env) (tenant : String) :
    List ToolCallMsg → List Msg → Nat → Bool × List Msg × Nat
  | [], msgs, k => (true, msgs, k)
  | tc :: rest, msgs, k =>
    let body := mcpCallRequestBody tc.name (parsedArgs env (argsStrOf tc)) tenant
    match env.invoke k body with
    | none => (false, msgs, k + 1)
    | some j => execTools env tenant rest (msgs ++ [Msg.tool tc.id j.stringify]) (k + 1)

/-- The fixed terminal message returned when the iteration cap is hit. -/
def maxIterMsg : String := "Tool orchestration exceeded max iterations."

/-- The `for (let i = 0; i < 6; i++)` tool-call loop, with `fuel`
remaining iterations, the current `loopMessages`, and the counts of
provider calls and tool invocations attempted so far. -/
def loopAux (env : Env) (tenant : String) :
    Nat → List Msg → Nat → Nat → RunOutcome
  | 0, msgs, p, k => ⟨.ok maxIterMsg, msgs, p, k⟩
  | fuel + 1, msgs, p, k =>
    match env.provider p with
    | none => ⟨.error "agent_failed", msgs, p + 1, k⟩
    | some reply =>
      let content := reply.content.getD ""
      if reply.tool_calls.isEmpty then
        ⟨.ok content, msgs, p + 1, k⟩
      else
        match execTools env tenant reply.tool_calls
            (msgs ++ [Msg.assistant content reply.tool_calls]) k with
        | (true, msgs2, k2) => loopAux env tenant fuel msgs2 (p + 1) k2
        | (false, msgs2, k2) => ⟨.error "agent_failed", msgs2, p + 1, k2⟩

/-- The whole tool-call loop with its cap of 6 iterations. -/
def runAgentLoop (env : Env) (tenant : String) (init : List Msg) : RunOutcome :=
  loopAux env tenant 6 init 0 0

/-- The initial conversation: optional system message plus the user
text (`if (system) messages.push(...); messages.push(\x7b role:"user" ... \x7d)`). -/
def mkInitMessages (system text : String) : List Msg :=
  (if system = "" then [] else [Msg.system system]) ++ [Msg.user text]

/-- Outcome of the tools-enabled branch including the tool list built
before the loop. -/
structure ChatOutcome where
  tools : List Json
  run : RunOutcome

/-- The tools-enabled path of `/api/agent/chat`: fetch `/mcp/tools`
(`toolsFetch`: `none` = the fetch threw, `some bodyText` = the raw
response text), parse it (`JSON.parse` failure degrades to `null`,
hence to an empty raw tool list), adapt via `toOpenAITools`, then run
the loop. A throwing fetch is uncaught and becomes `agent_failed`. -/
def agentChatTools (env : Env) (toolsFetch : Option String)
    (tenant system text : String) : ChatOutcome :=
  match toolsFetch with
  | none => ⟨[], ⟨.error "agent_failed", mkInitMessages system text, 0, 0⟩⟩
  | some bodyText =>
    let toolsJson := env.jsonParse bodyText
    let rawTools : List Json :=
      match toolsJson with
      | some j =>
        match j.jsGet "tools" with
        | some (Json.arr xs) => xs
        | _ => []
      | none => []
    let tools := toOpenAITools (Json.arr rawTools)
    ⟨tools, runAgentLoop env tenant (mkInitMessages system text)⟩

/-! ## MCP registry server (`src/mcp-server/server.mjs`) -/

/-- `const tool = body.tool || body.name;` from `app.post("/mcp/call")`. -/
def mcpCallToolField (body : Json) : Option Json :=
  if Json.truthyO (body.jsGet "tool") then body.jsGet "tool" else body.jsGet "name"

/-- One trace event as `pushLog` constructs it. -/
structure Event where
  ts : Nat
  kind : String
  tenant : String
  meta : Json
  payload : Json

/-- `pushLog`: append to `_log`, then `while (_log.length > LOG_MAX) _log.shift()`. -/
def pushLog (logMax : Nat) (log : List Event)
    (ts : Nat) (kind : String) (payload : Json) (meta : Json) (tenant : String) :
    List Event :=
  let l := log ++ [⟨ts, kind, tenant, meta, payload⟩]
  l.drop (l.length - logMax)

/-- JavaScript `Array.prototype.slice(start)` with a single, possibly
negative, start index. -/
def jsSlice {α : Type} (xs : List α) (start : Int) : List α :=
  if start < 0 then xs.drop ((xs.length + start)).toNat
  else xs.drop start.toNat

/-- The `/api/logs` handler:
`const limit = Math.min(Number(req.query.limit || 200), LOG_MAX);
res.json(\x7b events: _log.slice(-limit) \x7d)`, for a numeric requested
limit. -/
def apiLogs (logMax : Nat) (log : List Event) (limit : Int) : List Event :=
  jsSlice log (-(min limit (logMax : Int)))

/-- One tenant's configuration; the empty string models an
absent/falsy field. -/
structure TenantCfg where
  baseUrl : String
  apiKey : String
  user : String
  password : String

/-- `mkBaseApi`: normalize a base URL to an API root; `none` models the
`null` returned for a falsy base. -/
def mkBaseApi (base : String) : Option String :=
  if base = "" then none
  else
    let b := if strEndsWith base "/" then String.mk base.toList.dropLast else base
    if strEndsWith b "/api" || strEndsWith b "/api/" then some b
    else if strEndsWith b "/maximo" || strEndsWith b "/maximo/" then some (b ++ "/api")
    else some (b ++ "/maximo/api")

/-- A resolved tenant `\x7b ...t, api \x7d`. -/
structure ResolvedTenant where
  cfg : TenantCfg
  api : String

/-- `const t = tenants[tenantId] || tenants.default`. -/
def resolveTenant (tenants : List (String × TenantCfg)) (tenantId : String) :
    Option TenantCfg :=
  match tenants.lookup tenantId with
  | some t => some t
  | none => tenants.lookup "default"

/-- `tenantOrThrow`, with the tenant registry passed explicitly in
place of the `loadTenants()` call. -/
def tenantOrThrow (tenants : List (String × TenantCfg)) (tenantId : String) :
    Except String ResolvedTenant :=
  match resolveTenant tenants tenantId with
  | none => .error ("Tenant is not configured: " ++ tenantId)
  | some t =>
    if t.baseUrl = "" then .error ("Tenant is not configured: " ++ tenantId)
    else
      match mkBaseApi t.baseUrl with
      | none => .error ("Bad Maximo URL for tenant: " ++ tenantId)
      | some api => .ok ⟨t, api⟩

/-! ## General lemmas about the loop -/

/-- The tool messages the inner loop appends for a batch of tool calls
when every invocation returns a JSON body, `k` being the index of the
first invocation. -/
def toolBlock (env : Env) (tenant : String) : List ToolCallMsg → Nat → List Msg
  | [], _ => []
  | tc :: rest, k =>
    let body := mcpCallRequestBody tc.name (parsedArgs env (argsStrOf tc)) tenant
    match env.invoke k body with
    | none => []
    | some j => Msg.tool tc.id j.stringify :: toolBlock env tenant rest (k + 1)

theorem execTools_eq_toolBlock (env : Env) (tenant : String)
    (h : ∀ k b, (env.invoke k b).isSome) :
    ∀ tcs msgs k, execTools env tenant tcs msgs k =
      (true, msgs ++ toolBlock env tenant tcs k, k + tcs.length) := by
  intro tcs
  induction tcs with
  | nil => intro msgs k; simp [execTools, toolBlock]
  | cons tc rest ih =>
    intro msgs k
    obtain ⟨j, hj⟩ := Option.isSome_iff_exists.mp
      (h k (mcpCallRequestBody tc.name (parsedArgs env (argsStrOf tc)) tenant))
    simp only [execTools, toolBlock, hj, ih, List.length_cons]
    have h2 : k + 1 + rest.length = k + (rest.length + 1) := by omega
    rw [h2, ← List.append_cons]

theorem toolBlock_forall₂ (env : Env) (tenant : String)
    (h : ∀ k b, (env.invoke k b).isSome) :
    ∀ tcs k, List.Forall₂ (fun tc m => ∃ j : Json, m = Msg.tool tc.id j.stringify)
      tcs (toolBlock env tenant tcs k) := by
  intro tcs
  induction tcs with
  | nil => intro k; simp [toolBlock]
  | cons tc rest ih =>
    intro k
    obtain ⟨j, hj⟩ := Option.isSome_iff_exists.mp
      (h k (mcpCallRequestBody tc.name (parsedArgs env (argsStrOf tc)) tenant))
    simp only [toolBlock, hj]
    exact List.Forall₂.cons ⟨j, rfl⟩ (ih (k + 1))

theorem loopAux_providerCalls_le (env : Env) (tenant : String) :
    ∀ fuel msgs p k, (loopAux env tenant fuel msgs p k).providerCalls ≤ p + fuel := by
  intro fuel
  induction fuel with
  | zero => intro msgs p k; simp [loopAux]
  | succ n ih =>
    intro msgs p k
    simp only [loopAux]
    cases hp : env.provider p with
    | none => dsimp only; omega
    | some reply =>
      dsimp only
      by_cases hc : reply.tool_calls.isEmpty = true
      · rw [if_pos hc]; dsimp only; omega
      · rw [if_neg hc]
        rcases he : execTools env tenant reply.tool_calls
            (msgs ++ [Msg.assistant (reply.content.getD "") reply.tool_calls]) k
          with ⟨b, msgs2, k2⟩
        cases b
        · dsimp only; omega
        · dsimp only
          have := ih msgs2 (p + 1) k2
          omega

theorem loopAux_providerCalls_ge (env : Env) (tenant : String) :
    ∀ fuel msgs p k, p ≤ (loopAux env tenant fuel msgs p k).providerCalls := by
  intro fuel
  induction fuel with
  | zero => intro msgs p k; simp [loopAux]
  | succ n ih =>
    intro msgs p k
    simp only [loopAux]
    cases hp : env.provider p with
    | none => dsimp only; omega
    | some reply =>
      dsimp only
      by_cases hc : reply.tool_calls.isEmpty = true
      · rw [if_pos hc]; dsimp only; omega
      · rw [if_neg hc]
        rcases he : execTools env tenant reply.tool_calls
            (msgs ++ [Msg.assistant (reply.content.getD "") reply.tool_calls]) k
          with ⟨b, msgs2, k2⟩
        cases b
        · dsimp only; omega
        · dsimp only
          have := ih msgs2 (p + 1) k2
          omega

theorem loopAux_providerCalls_pos (env : Env) (tenant : String) :
    ∀ fuel msgs p k, 1 ≤ fuel →
      p + 1 ≤ (loopAux env tenant fuel msgs p k).providerCalls := by
  intro fuel msgs p k hf
  obtain ⟨m, rfl⟩ : ∃ m, fuel = m + 1 := ⟨fuel - 1, by omega⟩
  simp only [loopAux]
  cases hp : env.provider p with
  | none => dsimp only; omega
  | some reply =>
    dsimp only
    by_cases hc : reply.tool_calls.isEmpty = true
    · rw [if_pos hc]
    · rw [if_neg hc]
      rcases he : execTools env tenant reply.tool_calls
          (msgs ++ [Msg.assistant (reply.content.getD "") reply.tool_calls]) k
        with ⟨b, msgs2, k2⟩
      cases b
      · dsimp only; omega
      · dsimp only
        have := loopAux_providerCalls_ge env tenant m msgs2 (p + 1) k2
        omega

theorem loopAux_no_calls (env : Env) (tenant : String) (fuel : Nat)
    (msgs : List Msg) (p k : Nat) (reply : Reply)
    (h : env.provider p = some reply) (hc : reply.tool_calls = []) :
    loopAux env tenant (fuel + 1) msgs p k =
      ⟨.ok (reply.content.getD ""), msgs, p + 1, k⟩ := by
  simp [loopAux, h, hc]

theorem loopAux_all_tool_calls (env : Env) (tenant : String)
    (h1 : ∀ i, ∃ r, env.provider i = some r ∧ r.tool_calls ≠ [])
    (h2 : ∀ k b, (env.invoke k b).isSome) :
    ∀ fuel msgs p k, (loopAux env tenant fuel msgs p k).result = .ok maxIterMsg ∧
      (loopAux env tenant fuel msgs p k).providerCalls = p + fuel := by
  intro fuel
  induction fuel with
  | zero => intro msgs p k; simp [loopAux]
  | succ n ih =>
    intro msgs p k
    obtain ⟨r, hr, hne⟩ := h1 p
    obtain ⟨a, l, hal⟩ := List.exists_cons_of_ne_nil hne
    have hemp : r.tool_calls.isEmpty = false := by rw [hal]; rfl
    simp only [loopAux, hr]
    rw [if_neg (by simp [hemp])]
    rw [execTools_eq_toolBlock env tenant h2]
    dsimp only
    have := ih (msgs ++ [Msg.assistant (r.content.getD "") r.tool_calls] ++
      toolBlock env tenant r.tool_calls k) (p + 1) (k + r.tool_calls.length)
    exact ⟨this.1, by omega⟩

/-- C3: with provider replies that always carry at least one tool call
(and tool invocations that return JSON bodies), the loop terminates
after exactly 6 completion requests and returns the fixed
"exceeded max iterations" message as a normal result; and in every run
whatsoever the loop issues at most 6 completion requests. -/
theorem c3_iteration_cap (env : Env) (tenant : String) (init : List Msg) :
    ((∀ i, ∃ r, env.provider i = some r ∧ r.tool_calls ≠ []) →
      (∀ k b, (env.invoke k b).isSome) →
      (runAgentLoop env tenant init).result = .ok maxIterMsg ∧
        (runAgentLoop env tenant init).providerCalls = 6) ∧
    (runAgentLoop env tenant init).providerCalls ≤ 6 := by
  constructor
  · intro h1 h2
    exact loopAux_all_tool_calls env tenant h1 h2 6 init 0 0
  · exact loopAux_providerCalls_le env tenant 6 init 0 0

def c3env : Env :=
  ⟨fun _ => some (Json.obj []),
   fun _ => some ⟨some "again", [⟨"call1", "maximo.listOS", some "\x7b\x7d"⟩]⟩,
   fun _ _ => some (Json.obj [("ok", Json.bool false)])⟩

/-- Witness for C3 at a concrete environment whose provider always
requests a tool call. -/
theorem c3_iteration_cap_witness :
    (runAgentLoop c3env "default" (mkInitMessages "" "hi")).result = .ok maxIterMsg ∧
      (runAgentLoop c3env "default" (mkInitMessages "" "hi")).providerCalls = 6 :=
  (c3_iteration_cap c3env "default" (mkInitMessages "" "hi")).1
    (fun _ => ⟨⟨some "again", [⟨"call1", "maximo.listOS", some "\x7b\x7d"⟩]⟩, rfl,
      by simp⟩)
    (fun _ _ => rfl)

/-- C7: a provider reply with zero tool calls ends the loop immediately
on that iteration; the returned reply is that reply's content verbatim,
with exactly one completion request and no tool invocations, and the
conversation untouched. -/
theorem c7_terminal_no_tool_calls (env : Env) (tenant : String) (init : List Msg)
    (reply : Reply) (h : env.provider 0 = some reply) (hc : reply.tool_calls = []) :
    runAgentLoop env tenant init = ⟨.ok (reply.content.getD ""), init, 1, 0⟩ :=
  loopAux_no_calls env tenant 5 init 0 0 reply h hc

def c7env : Env :=
  ⟨fun _ => some (Json.obj []),
   fun _ => some ⟨some "hello there", []⟩,
   fun _ _ => some (Json.obj [])⟩

/-- Witness for C7 at a concrete environment with a tool-call-free
first reply. -/
theorem c7_terminal_no_tool_calls_witness :
    runAgentLoop c7env "default" (mkInitMessages "" "hi") =
      ⟨.ok "hello there", mkInitMessages "" "hi", 1, 0⟩ :=
  c7_terminal_no_tool_calls c7env "default" (mkInitMessages "" "hi")
    ⟨some "hello there", []⟩ rfl rfl

/-! ## C1 and C2: failure handling around tool invocation and tool-list fetch -/

def c1env : Env :=
  ⟨fun _ => some (Json.obj []),
   fun _ => some ⟨some "", [⟨"id1", "maximo.listOS", some "\x7b\x7d"⟩]⟩,
   fun _ _ => none⟩

def isToolMsg : Msg → Bool
  | Msg.tool _ _ => true
  | _ => false

/-- C1 counterexample: in a run whose single tool invocation suffers a
network failure (`fetch`/`.json()` throws), the loop does NOT append a
tool message and does NOT request another completion — the exception
escapes the loop and the whole run fails with `agent_failed`,
contradicting the claim that every failing tool invocation degrades to
an appended failure payload. -/
theorem c1_failure_aborts_cex :
    (runAgentLoop c1env "default" (mkInitMessages "" "hi")).result =
        .error "agent_failed" ∧
      (runAgentLoop c1env "default" (mkInitMessages "" "hi")).providerCalls = 1 ∧
      (runAgentLoop c1env "default" (mkInitMessages "" "hi")).toolInvocations = 1 ∧
      (runAgentLoop c1env "default" (mkInitMessages "" "hi")).messages.countP isToolMsg = 0 := by
  refine ⟨rfl, rfl, rfl, ?_⟩
  decide

/-- C1 (amended): whenever a tool invocation yields any JSON response
body — in particular the registry's non-2xx JSON failure payloads — the
loop appends one tool message per call, in order, whose content is the
stringified payload, and proceeds to the next completion request
instead of aborting. -/
theorem c1_tool_failure_step (env : Env) (tenant : String) (fuel : Nat)
    (msgs : List Msg) (p k : Nat) (reply : Reply)
    (h : env.provider p = some reply) (hne : reply.tool_calls ≠ [])
    (hinv : ∀ k2 b, (env.invoke k2 b).isSome) :
    loopAux env tenant (fuel + 1) msgs p k =
      loopAux env tenant fuel
        (msgs ++ Msg.assistant (reply.content.getD "") reply.tool_calls ::
          toolBlock env tenant reply.tool_calls k)
        (p + 1) (k + reply.tool_calls.length) ∧
    List.Forall₂ (fun tc m => ∃ j : Json, m = Msg.tool tc.id j.stringify)
      reply.tool_calls (toolBlock env tenant reply.tool_calls k) := by
  obtain ⟨a, l, hal⟩ := List.exists_cons_of_ne_nil hne
  have hemp : reply.tool_calls.isEmpty = false := by rw [hal]; rfl
  constructor
  · simp only [loopAux, h]
    rw [if_neg (by simp [hemp])]
    rw [execTools_eq_toolBlock env tenant hinv]
    dsimp only
    have hl : (msgs ++ [Msg.assistant (reply.content.getD "") reply.tool_calls]) ++
        toolBlock env tenant reply.tool_calls k =
        msgs ++ Msg.assistant (reply.content.getD "") reply.tool_calls ::
          toolBlock env tenant reply.tool_calls k := by simp
    rw [hl]
  · exact toolBlock_forall₂ env tenant hinv reply.tool_calls k

def c1wenv : Env :=
  ⟨fun _ => some (Json.obj []),
   fun _ => some ⟨some "", [⟨"id1", "maximo.listOS", some "\x7b\x7d"⟩]⟩,
   fun _ _ => some (Json.obj [("error", Json.str "mcp_failed")])⟩

/-- Witness for C1 (amended) at a concrete environment whose registry
returns an `ok:false`-style JSON failure payload. -/
theorem c1_tool_failure_step_witness :
    loopAux c1wenv "default" 1 (mkInitMessages "" "hi") 0 0 =
      loopAux c1wenv "default" 0
        (mkInitMessages "" "hi" ++
          Msg.assistant "" [⟨"id1", "maximo.listOS", some "\x7b\x7d"⟩] ::
          toolBlock c1wenv "default" [⟨"id1", "maximo.listOS", some "\x7b\x7d"⟩] 0)
        1 1 ∧
    List.Forall₂ (fun tc m => ∃ j : Json, m = Msg.tool tc.id j.stringify)
      [(⟨"id1", "maximo.listOS", some "\x7b\x7d"⟩ : ToolCallMsg)]
      (toolBlock c1wenv "default" [⟨"id1", "maximo.listOS", some "\x7b\x7d"⟩] 0) :=
  c1_tool_failure_step c1wenv "default" 0 (mkInitMessages "" "hi") 0 0
    ⟨some "", [⟨"id1", "maximo.listOS", some "\x7b\x7d"⟩]⟩ rfl
    (by simp) (fun _ _ => rfl)

def c2env : Env := ⟨fun _ => none, fun _ => none, fun _ _ => none⟩

/-- C2 counterexample: when the fetch of the tool list from the
registry suffers a network error (the `fetch` throws), the whole
request fails with `agent_failed` before a single completion is
requested — the loop does not proceed with an empty tool list. -/
theorem c2_network_error_cex :
    (agentChatTools c2env none "default" "" "hi").run.result = .error "agent_failed" ∧
      (agentChatTools c2env none "default" "" "hi").run.providerCalls = 0 ∧
      (agentChatTools c2env none "default" "" "hi").tools = [] :=
  ⟨rfl, rfl, rfl⟩

/-- C2 (amended): when the tool-list fetch returns a response body that
is not JSON (so `JSON.parse` throws and `toolsJson` degrades to
`null`), the loop proceeds with an empty tool list — at least one
completion is still requested — rather than failing the whole
request. -/
theorem c2_nonjson_degrades (env : Env) (tenant system text bodyText : String)
    (h : env.jsonParse bodyText = none) :
    agentChatTools env (some bodyText) tenant system text =
      ⟨[], runAgentLoop env tenant (mkInitMessages system text)⟩ ∧
    1 ≤ (agentChatTools env (some bodyText) tenant system text).run.providerCalls := by
  have hch : agentChatTools env (some bodyText) tenant system text =
      ⟨[], runAgentLoop env tenant (mkInitMessages system text)⟩ := by
    simp [agentChatTools, h, toOpenAITools, Json.jsArray]
  refine ⟨hch, ?_⟩
  rw [hch]
  exact loopAux_providerCalls_pos env tenant 6 (mkInitMessages system text) 0 0
    (by omega)

def c2wenv : Env :=
  ⟨fun _ => none, fun _ => some ⟨some "plain reply", []⟩, fun _ _ => none⟩

/-- Witness for C2 (amended) at a concrete environment whose tool-list
body is not JSON. -/
theorem c2_nonjson_degrades_witness :
    agentChatTools c2wenv (some "<html>oops") "default" "" "hi" =
      ⟨[], runAgentLoop c2wenv "default" (mkInitMessages "" "hi")⟩ ∧
    1 ≤ (agentChatTools c2wenv (some "<html>oops") "default" "" "hi").run.providerCalls :=
  c2_nonjson_degrades c2wenv "default" "" "hi" "<html>oops" rfl

/-! ## C8: the `/api/logs` read endpoint -/

/-- C8 counterexample: with a requested limit of `0`, the code computes
`_log.slice(-0) = _log.slice(0)` and returns every buffered event, so a
request yields more than `min(limit, capacity) = 0` events. -/
theorem c8_limit_zero_cex :
    ¬ ((apiLogs 500
          [⟨0, "rx_agent", "", Json.null, Json.null⟩,
           ⟨1, "tx_maximo", "", Json.null, Json.null⟩,
           ⟨2, "rx_maximo", "", Json.null, Json.null⟩] (0 : Int)).length ≤
        (min (0 : Int) (500 : Int)).toNat) := by
  decide

/-- C8 (amended): for every positive requested limit, the endpoint
returns exactly the suffix of the buffer of length
`min(limit, capacity, buffered)` — the buffered events most recent
last, never more than `min(limit, capacity)` of them; and `pushLog`
keeps the buffer within capacity. -/
theorem c8_logs_truncation_amended (logMax : Nat) (log : List Event) (limit : Int)
    (h1 : 1 ≤ limit) (h2 : log.length ≤ logMax) :
    apiLogs logMax log limit =
      log.drop (log.length - (min limit (logMax : Int)).toNat) ∧
    (apiLogs logMax log limit).length ≤ (min limit (logMax : Int)).toNat ∧
    (∀ log2 ts kind payload meta tenant, (log2 : List Event).length ≤ logMax →
      (pushLog logMax log2 ts kind payload meta tenant).length ≤ logMax) := by
  refine ⟨?_, ?_, ?_⟩
  · rcases Nat.eq_zero_or_pos logMax with h0 | hpos
    · subst h0
      have hnil : log = [] := List.length_eq_zero.mp (by omega)
      subst hnil
      simp [apiLogs, jsSlice]
    · have hm : 1 ≤ min limit (logMax : Int) := by omega
      have hneg : -(min limit (logMax : Int)) < 0 := by omega
      simp only [apiLogs, jsSlice, if_pos hneg]
      congr 1
      omega
  · rcases Nat.eq_zero_or_pos logMax with h0 | hpos
    · subst h0
      have hnil : log = [] := List.length_eq_zero.mp (by omega)
      subst hnil
      simp [apiLogs, jsSlice]
    · have hneg : -(min limit (logMax : Int)) < 0 := by omega
      simp only [apiLogs, jsSlice, if_pos hneg, List.length_drop]
      omega
  · intro log2 ts kind payload meta tenant hlen
    simp only [pushLog, List.length_drop]
    simp only [List.length_append]
    omega

/-- Witness for C8 (amended) at a concrete buffer and limit. -/
theorem c8_logs_truncation_amended_witness :
    apiLogs 500
        [⟨0, "rx_agent", "", Json.null, Json.null⟩,
         ⟨1, "tx_maximo", "", Json.null, Json.null⟩,
         ⟨2, "rx_maximo", "", Json.null, Json.null⟩] (2 : Int) =
      ([⟨0, "rx_agent", "", Json.null, Json.null⟩,
        ⟨1, "tx_maximo", "", Json.null, Json.null⟩,
        ⟨2, "rx_maximo", "", Json.null, Json.null⟩] : List Event).drop
        (3 - (min (2 : Int) (500 : Int)).toNat) ∧
    (apiLogs 500
        [⟨0, "rx_agent", "", Json.null, Json.null⟩,
         ⟨1, "tx_maximo", "", Json.null, Json.null⟩,
         ⟨2, "rx_maximo", "", Json.null, Json.null⟩] (2 : Int)).length ≤
      (min (2 : Int) (500 : Int)).toNat :=
  ⟨(c8_logs_truncation_amended 500 _ 2 (by decide) (by decide)).1,
   (c8_logs_truncation_amended 500 _ 2 (by decide) (by decide)).2.1⟩

/-! ## C9: the `tool`-field fallback of `POST /mcp/call` -/

/-- C9: the registry's invoke endpoint reads `body.tool || body.name`,
so when `tool` is absent (or falsy) it falls back to `name`; the body
the orchestration loop sends carries the identifier only under `name`
and no `tool` key at all, so dispatch relies on that fallback. -/
theorem c9_tool_field_fallback :
    (∀ body : Json, Json.truthyO (body.jsGet "tool") = false →
      mcpCallToolField body = body.jsGet "name") ∧
    (∀ (name : String) (args : Json) (tenant : String),
      mcpCallToolField (mcpCallRequestBody name args tenant) = some (.str name) ∧
      (mcpCallRequestBody name args tenant).jsGet "tool" = none) := by
  constructor
  · intro body h
    simp [mcpCallToolField, h]
  · intro name args tenant
    constructor
    · simp [mcpCallToolField, mcpCallRequestBody, Json.jsGet, List.lookup,
        Json.truthyO]
    · simp [mcpCallRequestBody, Json.jsGet, List.lookup]

/-- Witness for C9 at a concrete loop-issued request body. -/
theorem c9_tool_field_fallback_witness :
    mcpCallToolField (Json.obj [("name", Json.str "maximo.listOS")]) =
      some (Json.str "maximo.listOS") ∧
    mcpCallToolField (mcpCallRequestBody "maximo.queryOS" (Json.obj []) "default") =
      some (Json.str "maximo.queryOS") ∧
    (mcpCallRequestBody "maximo.queryOS" (Json.obj []) "default").jsGet "tool" = none := by
  refine ⟨?_, ?_, ?_⟩
  · rw [c9_tool_field_fallback.1 (Json.obj [("name", Json.str "maximo.listOS")]) rfl]
    simp [Json.jsGet, List.lookup]
  · exact (c9_tool_field_fallback.2 "maximo.queryOS" (Json.obj []) "default").1
  · exact (c9_tool_field_fallback.2 "maximo.queryOS" (Json.obj []) "default").2

/-! ## C10: unknown tenants fall back to `default` -/

theorem mkBaseApi_isSome (s : String) (h : s ≠ "") : ∃ a, mkBaseApi s = some a := by
  simp only [mkBaseApi, if_neg h]
  split_ifs <;> exact ⟨_, rfl⟩

/-- C10: a request naming a tenant id absent from the registry silently
resolves to the `default` tenant's configuration (base URL and
credentials); and `tenantOrThrow` errors exactly when the resolved
tenant is missing or has no (falsy) base URL. -/
theorem c10_default_tenant_fallback (tenants : List (String × TenantCfg)) (id : String) :
    ((tenants.lookup id = none) → ∀ d, tenants.lookup "default" = some d →
      d.baseUrl ≠ "" → ∃ api, tenantOrThrow tenants id = .ok ⟨d, api⟩) ∧
    ((∃ e, tenantOrThrow tenants id = .error e) ↔
      (resolveTenant tenants id = none ∨
        ∃ t, resolveTenant tenants id = some t ∧ t.baseUrl = "")) := by
  constructor
  · intro hnone d hd hurl
    obtain ⟨api, hapi⟩ := mkBaseApi_isSome d.baseUrl hurl
    refine ⟨api, ?_⟩
    simp [tenantOrThrow, resolveTenant, hnone, hd, hurl, hapi]
  · cases hres : resolveTenant tenants id with
    | none =>
      simp [tenantOrThrow, hres]
    | some t =>
      by_cases hurl : t.baseUrl = ""
      · simp [tenantOrThrow, hres, hurl]
      · obtain ⟨api, hapi⟩ := mkBaseApi_isSome t.baseUrl hurl
        simp [tenantOrThrow, hres, hurl, hapi]

/-- Witness for C10 at a concrete registry with only a `default`
tenant. -/
theorem c10_default_tenant_fallback_witness :
    (∃ api, tenantOrThrow
        [("default", ⟨"https://host/maximo", "key1", "u", "p"⟩)] "unknownTenant" =
      .ok ⟨⟨"https://host/maximo", "key1", "u", "p"⟩, api⟩) ∧
    ¬ (∃ e, tenantOrThrow
        [("default", ⟨"https://host/maximo", "key1", "u", "p"⟩)] "unknownTenant" =
      .error e) := by
  constructor
  · exact (c10_default_tenant_fallback
      [("default", ⟨"https://host/maximo", "key1", "u", "p"⟩)] "unknownTenant").1
      rfl ⟨"https://host/maximo", "key1", "u", "p"⟩ rfl (by decide)
  · intro he
    have := (c10_default_tenant_fallback
      [("default", ⟨"https://host/maximo", "key1", "u", "p"⟩)] "unknownTenant").2.mp he
    rcases this with h | ⟨t, ht, hurl⟩
    · simp [resolveTenant, List.lookup] at h
    · have ht2 : t = ⟨"https://host/maximo", "key1", "u", "p"⟩ := by
        have : some t = some (⟨"https://host/maximo", "key1", "u", "p"⟩ : TenantCfg) := by
          rw [← ht]; rfl
        exact Option.some.inj this
      rw [ht2] at hurl
      exact absurd hurl (by decide)

/-! ## C5 and C6: the Tool Schema Adapter -/

theorem canonGuard_mkCanonical (N D : String) (P : Json) :
    canonGuard (mkCanonical N D P) = (N != "") := rfl

theorem strOrEmpty_str (D : String) : strOrEmpty (some (.str D)) = D := by
  by_cases h : D = ""
  · subst h; rfl
  · simp [strOrEmpty, Json.truthy, Json.jsToString, h]

theorem paramsOrDefault_kept (o : Option Json) :
    ((paramsOrDefault o).truthy && (paramsOrDefault o).typeofObj) = true := by
  match o with
  | none => rfl
  | some p =>
    by_cases h : (p.truthy && p.typeofObj) = true
    · simp only [paramsOrDefault]
      rw [if_pos h]
      exact h
    · simp only [paramsOrDefault]
      rw [if_neg h]
      rfl

theorem paramsOrDefault_of_not_kept (o : Option Json) (h : paramsKept o = false) :
    paramsOrDefault o = defaultSchema := by
  match o with
  | none => rfl
  | some p =>
    simp only [paramsKept] at h
    simp only [paramsOrDefault]
    rw [if_neg (by simp [h])]

/-- A descriptor produced by the adapter is a fixed point of the
per-descriptor normalization. -/
theorem convTool_stable (N D : String) (P : Json) (hN : N ≠ "")
    (hP : (P.truthy && P.typeofObj) = true) :
    convTool (mkCanonical N D P) = some (mkCanonical N D P) := by
  have hg : canonGuard (mkCanonical N D P) = true := by
    rw [canonGuard_mkCanonical]
    exact bne_iff_ne.mpr hN
  simp only [convTool]
  rw [if_pos hg]
  show some (mkCanonical (Json.str N).jsToString (strOrEmpty (some (Json.str D)))
      (paramsOrDefault (some P))) = some (mkCanonical N D P)
  rw [strOrEmpty_str]
  have h2 : paramsOrDefault (some P) = P := by
    simp only [paramsOrDefault]; rw [if_pos hP]
  rw [h2]
  rfl

/-- Every descriptor the adapter outputs has the canonical shape, with
a kept parameters value, and a non-empty name unless the
already-canonical branch stringified a truthy name to the empty
string. -/
theorem convTool_shape (t y : Json) (h : convTool t = some y) :
    ∃ N D P, y = mkCanonical N D P ∧ (P.truthy && P.typeofObj) = true ∧
      (canonGuard t = true → N = (canonName t).jsToString) ∧
      (canonGuard t = false → N ≠ "") := by
  by_cases hg : canonGuard t = true
  · have h' := h
    simp only [convTool, if_pos hg] at h'
    exact ⟨(canonName t).jsToString, _, _, (Option.some.inj h').symm,
      paramsOrDefault_kept _, fun _ => rfl, fun hf => absurd hg (by simp [hf])⟩
  · have h' := h
    simp only [convTool, if_neg hg] at h'
    by_cases hnm : jsTrim (strOrEmpty (t.jsGet "name")) = ""
    · rw [if_pos hnm] at h'
      exact absurd h' (by simp)
    · rw [if_neg hnm] at h'
      refine ⟨_, _, _, (Option.some.inj h').symm, paramsOrDefault_kept _,
        fun htr => absurd htr hg, fun _ => hnm⟩

theorem filterMap_id_of_mem {α : Type} (f : α → Option α) :
    ∀ l : List α, (∀ a ∈ l, f a = some a) → l.filterMap f = l := by
  intro l
  induction l with
  | nil => intro _; rfl
  | cons a l ih =>
    intro h
    rw [List.filterMap_cons_some (h a (List.mem_cons_self a l)),
      ih (fun b hb => h b (List.mem_cons_of_mem a hb))]

def c5raw : Json :=
  .arr [.obj [("type", .str "function"), ("function", .obj [("name", .arr [])])]]

/-- C5 counterexample: a raw descriptor of the already-canonical shape
whose `function.name` is the (truthy) empty array is kept with
`String([]) = ""` as its name on the first pass and dropped on the
second, so `toOpenAITools` is not idempotent on all inputs. -/
theorem c5_idempotence_cex :
    ¬ (toOpenAITools (Json.arr (toOpenAITools c5raw)) = toOpenAITools c5raw) := by
  intro h
  have h2 : (toOpenAITools (Json.arr (toOpenAITools c5raw))).length
      = (toOpenAITools c5raw).length := by rw [h]
  exact absurd h2 (by decide)

/-- C5 (amended): `toOpenAITools` is idempotent on every input list in
which no already-canonical entry carries a truthy `function.name` that
stringifies to the empty string (in particular on every input whose
name fields are strings or absent). -/
theorem c5_idempotent_amended (tools : Json)
    (h : ∀ t ∈ tools.jsArray, canonGuard t = true → (canonName t).jsToString ≠ "") :
    toOpenAITools (Json.arr (toOpenAITools tools)) = toOpenAITools tools := by
  simp only [toOpenAITools, Json.jsArray]
  apply filterMap_id_of_mem
  intro y hy
  obtain ⟨t, ht, hconv⟩ := List.mem_filterMap.mp hy
  obtain ⟨N, D, P, rfl, hP, hcanon, hncanon⟩ := convTool_shape t y hconv
  apply convTool_stable
  · by_cases hg : canonGuard t = true
    · rw [hcanon hg]; exact h t ht hg
    · exact hncanon (by simpa using hg)
  · exact hP

/-- Witness for C5 (amended) on a native-shaped registry tool list. -/
theorem c5_idempotent_amended_witness :
    toOpenAITools (Json.arr (toOpenAITools
        (Json.arr [Json.obj [("name", Json.str "maximo.listOS")]]))) =
      toOpenAITools (Json.arr [Json.obj [("name", Json.str "maximo.listOS")]]) :=
  c5_idempotent_amended (Json.arr [Json.obj [("name", Json.str "maximo.listOS")]])
    (by decide)

def c6raw : Json :=
  .arr [.obj [("type", .str "function"), ("function", .obj [("name", .arr [Json.null])])]]

/-- C6 counterexample: an already-canonical raw descriptor whose
`function.name` is the truthy array `[null]` passes the name guard but
stringifies to `""`, so the adapter's output contains a descriptor with
an empty name. -/
theorem c6_name_drop_cex :
    (toOpenAITools c6raw).length = 1 ∧
    fnName ((toOpenAITools c6raw).headD Json.null) = some (Json.str "") := by
  constructor
  · decide
  · rfl

/-- C6 (amended): (a) provided no already-canonical entry has a truthy
name stringifying to `""`, every output descriptor has a non-empty
name; (b) kept descriptors appear in the same relative order as their
input entries; (c) a descriptor whose relevant parameters value is
absent or fails the code's `p && typeof p === "object"` test gets the
default schema. -/
theorem c6_adapter_shape_amended :
    (∀ tools : Json,
      (∀ t ∈ tools.jsArray, canonGuard t = true → (canonName t).jsToString ≠ "") →
      ∀ y ∈ toOpenAITools tools, ∃ s, s ≠ "" ∧ fnName y = some (Json.str s)) ∧
    (∀ (l₁ : List Json) (t₁ : Json) (l₂ : List Json) (t₂ : Json) (l₃ : List Json)
      (y₁ y₂ : Json), convTool t₁ = some y₁ → convTool t₂ = some y₂ →
      toOpenAITools (Json.arr (l₁ ++ t₁ :: l₂ ++ t₂ :: l₃)) =
        l₁.filterMap convTool ++ y₁ :: l₂.filterMap convTool ++
          y₂ :: l₃.filterMap convTool) ∧
    (∀ t y : Json, convTool t = some y → paramsKept (rawParams t) = false →
      fnParams y = some defaultSchema) := by
  refine ⟨?_, ?_, ?_⟩
  · intro tools h y hy
    obtain ⟨t, ht, hconv⟩ := List.mem_filterMap.mp hy
    obtain ⟨N, D, P, rfl, hP, hcanon, hncanon⟩ := convTool_shape t y hconv
    refine ⟨N, ?_, rfl⟩
    by_cases hg : canonGuard t = true
    · rw [hcanon hg]; exact h t ht hg
    · exact hncanon (by simpa using hg)
  · intro l₁ t₁ l₂ t₂ l₃ y₁ y₂ h1 h2
    simp [toOpenAITools, Json.jsArray, List.filterMap_append, List.filterMap_cons, h1, h2]
  · intro t y hconv hkept
    by_cases hg : canonGuard t = true
    · simp only [convTool, if_pos hg] at hconv
      have hy : y = mkCanonical ((((t.jsGet "function").getD Json.null).jsGet "name").getD
          Json.null).jsToString
          (strOrEmpty (((t.jsGet "function").getD Json.null).jsGet "description"))
          (paramsOrDefault (((t.jsGet "function").getD Json.null).jsGet "parameters")) :=
        (Option.some.inj hconv).symm
      have hr : rawParams t = ((t.jsGet "function").getD Json.null).jsGet "parameters" := by
        simp [rawParams, hg]
      rw [hr] at hkept
      rw [hy]
      show some (paramsOrDefault (((t.jsGet "function").getD Json.null).jsGet "parameters")) =
        some defaultSchema
      rw [paramsOrDefault_of_not_kept _ hkept]
    · simp only [convTool, if_neg hg] at hconv
      by_cases hnm : jsTrim (strOrEmpty (t.jsGet "name")) = ""
      · rw [if_pos hnm] at hconv
        exact absurd hconv (by simp)
      · rw [if_neg hnm] at hconv
        have hy : y = mkCanonical (jsTrim (strOrEmpty (t.jsGet "name")))
            (strOrEmpty (t.jsGet "description"))
            (paramsOrDefault (t.jsGet "inputSchema")) := (Option.some.inj hconv).symm
        have hr : rawParams t = t.jsGet "inputSchema" := by
          simp [rawParams, hg]
        rw [hr] at hkept
        rw [hy]
        show some (paramsOrDefault (t.jsGet "inputSchema")) = some defaultSchema
        rw [paramsOrDefault_of_not_kept _ hkept]

/-- Witness for C6 (amended) on concrete native-shaped descriptors. -/
theorem c6_adapter_shape_amended_witness :
    (∃ s, s ≠ "" ∧ fnName (mkCanonical "maximo.listOS" "" defaultSchema) =
      some (Json.str s)) ∧
    toOpenAITools (Json.arr [Json.obj [("name", Json.str "a")],
        Json.obj [("name", Json.str "b")]]) =
      [mkCanonical "a" "" defaultSchema, mkCanonical "b" "" defaultSchema] ∧
    fnParams (mkCanonical "a" "" defaultSchema) = some defaultSchema := by
  refine ⟨?_, ?_, ?_⟩
  · refine c6_adapter_shape_amended.1
      (Json.arr [Json.obj [("name", Json.str "maximo.listOS")]]) (by decide)
      (mkCanonical "maximo.listOS" "" defaultSchema) ?_
    rw [show toOpenAITools (Json.arr [Json.obj [("name", Json.str "maximo.listOS")]]) =
      [mkCanonical "maximo.listOS" "" defaultSchema] from rfl]
    exact List.mem_singleton.mpr rfl
  · exact c6_adapter_shape_amended.2.1 [] (Json.obj [("name", Json.str "a")]) []
      (Json.obj [("name", Json.str "b")]) [] _ _ rfl rfl
  · exact c6_adapter_shape_amended.2.2 (Json.obj [("name", Json.str "a")]) _ rfl rfl

/-! ## C4: the assistant/tool message alternation invariant -/

/-- The relation between a tool call and the tool message the loop
appends for it: same `tool_call_id`, some stringified content. -/
def ToolBlockR (tc : ToolCallMsg) (m : Msg) : Prop := ∃ s, m = Msg.tool tc.id s

def isAssistantMsg : Msg → Bool
  | Msg.assistant _ _ => true
  | _ => false

/-- P5 as stated: wherever an assistant message with non-empty tool
calls occurs in the conversation, it is immediately followed by exactly
one tool message per call, with matching ids, in request order, and the
batch is closed (what follows is the end of the conversation or the
next assistant message). -/
def Alt (msgs : List Msg) : Prop :=
  ∀ pre c tcs rest, msgs = pre ++ Msg.assistant c tcs :: rest → tcs ≠ [] →
    ∃ block rest2, rest = block ++ rest2 ∧ List.Forall₂ ToolBlockR tcs block ∧
      (rest2 = [] ∨ ∃ c2 tcs2 rest3, rest2 = Msg.assistant c2 tcs2 :: rest3)

/-- The grammar of the loop-appended part of the conversation: a
sequence of chunks, each an assistant message with its complete tool
block. -/
inductive Chunks : List Msg → Prop
  | nil : Chunks []
  | cons (c : String) (tcs : List ToolCallMsg) (block rest : List Msg) :
      tcs ≠ [] → List.Forall₂ ToolBlockR tcs block → Chunks rest →
      Chunks (Msg.assistant c tcs :: (block ++ rest))

theorem chunks_snoc {l : List Msg} (h : Chunks l) (c : String)
    (tcs : List ToolCallMsg) (block : List Msg) (h1 : tcs ≠ [])
    (h2 : List.Forall₂ ToolBlockR tcs block) :
    Chunks (l ++ Msg.assistant c tcs :: block) := by
  induction h with
  | nil => simpa using Chunks.cons c tcs block [] h1 h2 Chunks.nil
  | cons c0 tcs0 block0 rest0 h0 hb0 hrest ih =>
    have := Chunks.cons c0 tcs0 block0 (rest0 ++ Msg.assistant c tcs :: block) h0 hb0 ih
    simpa [List.append_assoc] using this

theorem chunks_head {l : List Msg} (h : Chunks l) :
    l = [] ∨ ∃ c tcs rest, l = Msg.assistant c tcs :: rest := by
  cases h with
  | nil => exact Or.inl rfl
  | cons c tcs block rest h1 h2 h3 => exact Or.inr ⟨c, tcs, block ++ rest, rfl⟩

theorem block_no_assistant {tcs : List ToolCallMsg} {block : List Msg}
    (h : List.Forall₂ ToolBlockR tcs block) :
    ∀ m ∈ block, isAssistantMsg m = false := by
  induction h with
  | nil => intro m hm; cases hm
  | cons hr hrest ih =>
    intro m hm
    rcases List.mem_cons.mp hm with rfl | hm2
    · obtain ⟨s, rfl⟩ := hr; rfl
    · exact ih m hm2

theorem alt_of {l₂ : List Msg} (h2 : Chunks l₂) :
    ∀ l₁, (∀ m ∈ l₁, isAssistantMsg m = false) → Alt (l₁ ++ l₂) := by
  induction h2 with
  | nil =>
    intro l₁ h1 pre c tcs rest heq htcs
    rw [List.append_nil] at heq
    have hm : Msg.assistant c tcs ∈ l₁ := by
      rw [heq]; exact List.mem_append_right pre (List.mem_cons_self _ _)
    have := h1 _ hm
    simp [isAssistantMsg] at this
  | cons c0 tcs0 block0 rest0 h0 hb0 hrest ih =>
    intro l₁ h1 pre c tcs rest heq htcs
    rcases List.append_eq_append_iff.mp heq with ⟨a2, hpre, hb⟩ | ⟨c2, hl1, hd⟩
    · cases a2 with
      | nil =>
        simp only [List.nil_append] at hb
        obtain ⟨hc0, htcs0, hrest0⟩ : c0 = c ∧ tcs0 = tcs ∧ block0 ++ rest0 = rest := by
          have h3 := List.cons.inj hb
          have h4 := Msg.assistant.inj h3.1
          exact ⟨h4.1, h4.2, h3.2⟩
        refine ⟨block0, rest0, hrest0.symm, htcs0 ▸ hb0, ?_⟩
        rcases chunks_head hrest with h | ⟨c2, tcs2, rest3, h⟩
        · exact Or.inl h
        · exact Or.inr ⟨c2, tcs2, rest3, h⟩
      | cons x a3 =>
        have h3 := List.cons.inj hb
        have h5 : block0 ++ rest0 = a3 ++ Msg.assistant c tcs :: rest := h3.2
        exact ih block0 (block_no_assistant hb0) a3 c tcs rest h5 htcs
    · cases c2 with
      | nil =>
        rw [List.append_nil] at hl1
        simp only [List.nil_append] at hd
        obtain ⟨hc0, htcs0, hrest0⟩ : c = c0 ∧ tcs = tcs0 ∧ rest = block0 ++ rest0 := by
          have h3 := List.cons.inj hd
          have h4 := Msg.assistant.inj h3.1
          exact ⟨h4.1, h4.2, h3.2⟩
        refine ⟨block0, rest0, hrest0, htcs0.symm ▸ hb0, ?_⟩
        rcases chunks_head hrest with h | ⟨c3, tcs3, rest3, h⟩
        · exact Or.inl h
        · exact Or.inr ⟨c3, tcs3, rest3, h⟩
      | cons x c3 =>
        have h3 := List.cons.inj hd
        have hx : Msg.assistant c tcs ∈ l₁ := by
          rw [hl1, ← h3.1]
          exact List.mem_append_right pre (List.mem_cons_self _ _)
        have := h1 _ hx
        simp [isAssistantMsg] at this

theorem execTools_true_spec (env : Env) (tenant : String) :
    ∀ tcs msgs k msgs2 k2,
      execTools env tenant tcs msgs k = (true, msgs2, k2) →
      ∃ block, msgs2 = msgs ++ block ∧ List.Forall₂ ToolBlockR tcs block := by
  intro tcs
  induction tcs with
  | nil =>
    intro msgs k msgs2 k2 h
    simp only [execTools] at h
    obtain ⟨h1, h2⟩ := Prod.mk.injEq .. ▸ h
    exact ⟨[], by simp [← (Prod.mk.injEq .. ▸ h2).1], List.Forall₂.nil⟩
  | cons tc rest ih =>
    intro msgs k msgs2 k2 h
    simp only [execTools] at h
    cases hj : env.invoke k (mcpCallRequestBody tc.name (parsedArgs env (argsStrOf tc)) tenant) with
    | none =>
      rw [hj] at h
      simp at h
    | some j =>
      rw [hj] at h
      obtain ⟨block, hb1, hb2⟩ :=
        ih (msgs ++ [Msg.tool tc.id j.stringify]) (k + 1) msgs2 k2 h
      exact ⟨Msg.tool tc.id j.stringify :: block, by simp [hb1],
        List.Forall₂.cons ⟨j.stringify, rfl⟩ hb2⟩

theorem loopAux_chunks (env : Env) (tenant : String) :
    ∀ fuel (init ch : List Msg) p k, Chunks ch →
      (∃ r, (loopAux env tenant fuel (init ++ ch) p k).result = Except.ok r) →
      ∃ ch2, (loopAux env tenant fuel (init ++ ch) p k).messages = init ++ ch2 ∧
        Chunks ch2 := by
  intro fuel
  induction fuel with
  | zero =>
    intro init ch p k hch _
    exact ⟨ch, rfl, hch⟩
  | succ n ihf =>
    intro init ch p k hch hok
    simp only [loopAux] at hok ⊢
    cases hp : env.provider p with
    | none =>
      rw [hp] at hok
      obtain ⟨r, hr⟩ := hok
      simp at hr
    | some reply =>
      rw [hp] at hok
      dsimp only at hok ⊢
      by_cases hc : reply.tool_calls.isEmpty = true
      · rw [if_pos hc] at hok ⊢
        exact ⟨ch, rfl, hch⟩
      · rw [if_neg hc] at hok ⊢
        simp only [List.append_assoc] at hok
        simp only [List.append_assoc]
        rcases he : execTools env tenant reply.tool_calls
            (init ++ (ch ++ [Msg.assistant (reply.content.getD "") reply.tool_calls])) k
          with ⟨b, msgs2, k2⟩
        rw [he] at hok
        cases b
        · dsimp only at hok
          obtain ⟨r, hr⟩ := hok
          simp at hr
        · dsimp only at hok ⊢
          obtain ⟨block, hb1, hb2⟩ := execTools_true_spec env tenant _ _ _ _ _ he
          have htcs : reply.tool_calls ≠ [] := by
            intro hnil
            exact hc (by rw [hnil]; rfl)
          have hms : msgs2 = init ++
              (ch ++ Msg.assistant (reply.content.getD "") reply.tool_calls :: block) := by
            rw [hb1]; simp
          have hch2 : Chunks (ch ++
              Msg.assistant (reply.content.getD "") reply.tool_calls :: block) :=
            chunks_snoc hch _ _ _ htcs hb2
          rw [hms] at hok ⊢
          exact ihf init _ (p + 1) k2 hch2 hok

theorem mkInit_no_assistant (system text : String) :
    ∀ m ∈ mkInitMessages system text, isAssistantMsg m = false := by
  intro m hm
  by_cases h : system = ""
  · simp [mkInitMessages, h] at hm
    subst hm; rfl
  · simp [mkInitMessages, h] at hm
    rcases hm with rfl | rfl <;> rfl

/-- C4: in every run that ends normally (terminal reply or the
iteration-cap message), the conversation satisfies the alternation
invariant: each assistant message with non-empty tool calls is
immediately followed by exactly one tool message per call, ids matching
in request order. -/
theorem c4_alternation (env : Env) (tenant system text : String)
    (h : ∃ r, (runAgentLoop env tenant (mkInitMessages system text)).result =
      Except.ok r) :
    Alt (runAgentLoop env tenant (mkInitMessages system text)).messages := by
  have hrw : mkInitMessages system text ++ ([] : List Msg) =
      mkInitMessages system text := List.append_nil _
  have h' : ∃ r, (loopAux env tenant 6
      (mkInitMessages system text ++ ([] : List Msg)) 0 0).result = Except.ok r := by
    rw [hrw]; exact h
  obtain ⟨ch2, hm, hch⟩ := loopAux_chunks env tenant 6
    (mkInitMessages system text) [] 0 0 Chunks.nil h'
  rw [hrw] at hm
  show Alt (loopAux env tenant 6 (mkInitMessages system text) 0 0).messages
  rw [hm]
  exact alt_of hch (mkInitMessages system text) (mkInit_no_assistant system text)

def c4env : Env :=
  ⟨fun _ => some (Json.obj []),
   fun _ => some ⟨some "plain answer", []⟩,
   fun _ _ => some (Json.obj [])⟩

/-- Witness for C4 at a concrete environment with a normal
termination. -/
theorem c4_alternation_witness :
    Alt (runAgentLoop c4env "default" (mkInitMessages "" "hi")).messages :=
  c4_alternation c4env "default" "" "hi" ⟨"plain answer", rfl⟩
